import Mathlib

/-!
Shallow embedding of the admission-control / queueing core of the `pi-llm`
repository (files `app/core/queue.py` and `app/services/inference.py`),
together with theorems settling the frozen claims about it.

Python exceptions are modelled with `Except` / `Option`, `asyncio` channels as
explicit lists in FIFO order, `float` metrics as `Rat`, and Python `int` as
`Int`.  Concurrency (the asyncio event loop with the controller lock) is
modelled as a labelled transition system whose atomic steps are the code's
lock-protected critical sections.
-/

/-- Exceptions that appear in the modelled code paths: `RuntimeError`,
`asyncio.QueueFull`, and arbitrary engine-raised exceptions. -/
inductive PyError where
  | runtimeError (msg : String)
  | queueFull
  | engineError (msg : String)
deriving DecidableEq, Repr

/-- The sampling parameters handed to the backend by
`_process_streaming` / `_process_sync` (`inference.py`). -/
structure GenParams where
  prompt : String
  system : Option String
  max_tokens : Int
  temperature : Rat
  top_p : Rat
  top_k : Int
  stop : List String
deriving DecidableEq, Repr

/-- Result dict of `LLMManager.generate` (non-streaming mode). -/
structure GenResult where
  text : String
  prompt_tokens : Int
  completion_tokens : Int
  total_tokens : Int
deriving DecidableEq, Repr

/-- The external engine (`app/core/llm.py`), opaque to the core: a record of
the capabilities the service consumes.  `generate_stream` yields the tokens
emitted before the call returns, paired with `some e` when the underlying
iterator raises `e` after those tokens (and `none` when it finishes cleanly). -/
structure LLMManager where
  is_loaded : Bool
  model_name : String
  generate_stream : GenParams → List String × Option PyError
  generate : GenParams → Except PyError GenResult
  get_token_count : String → Int

/-- `InferenceRequest` (`app/core/queue.py`): caller-supplied parameters plus
internal lifecycle state.  `tokenQueue` is the contents of `_token_queue` in
FIFO order, with `none` as the `None` sentinel; `done` is the `_done` event;
`stats` is the `_stats` dict (a list of key/value pairs, default empty);
`error` is `_error`. -/
structure InferenceRequest where
  prompt : String
  system : Option String := none
  max_tokens : Int := 96
  temperature : Rat := 7/10
  top_p : Rat := 9/10
  top_k : Int := 40
  stop : List String := []
  stream : Bool := true
  id : String := ""
  tokenQueue : List (Option String) := []
  done : Bool := false
  stats : List (String × Int) := []
  error : Option PyError := none
deriving DecidableEq, Repr

namespace InferenceRequest

/-- `put_token`: append one generated token to the stream channel. -/
def put_token (r : InferenceRequest) (token : String) : InferenceRequest :=
  { r with tokenQueue := r.tokenQueue ++ [some token] }

/-- `complete(stats)`: store stats, push the `None` sentinel, set `_done`. -/
def complete (r : InferenceRequest) (stats : List (String × Int)) : InferenceRequest :=
  { r with stats := stats, tokenQueue := r.tokenQueue ++ [none], done := true }

/-- `fail(error)`: store the error, push the `None` sentinel, set `_done`. -/
def fail (r : InferenceRequest) (error : PyError) : InferenceRequest :=
  { r with error := some error, tokenQueue := r.tokenQueue ++ [none], done := true }

/-- `get_stats`: `await self._done.wait(); return self._stats`.  `none` models
the caller still suspended on the completion signal; once `done` is set the
call returns (`Except.ok`) the stats dict — the code has no raise here. -/
def get_stats (r : InferenceRequest) : Option (Except PyError (List (String × Int))) :=
  if r.done then some (Except.ok r.stats) else none

/-- What a single consumer of `token_stream()` observes: the tokens yielded in
order, then how the iteration terminated.  `suspended` models a consumer still
blocked on `_token_queue.get()` because no sentinel has arrived. -/
inductive StreamOutcome where
  | ended (tokens : List String)
  | errored (tokens : List String) (e : PyError)
  | suspended (tokens : List String)
deriving DecidableEq, Repr

/-- One step of the `token_stream` loop: prefix an already-yielded token. -/
def StreamOutcome.consToken (t : String) : StreamOutcome → StreamOutcome
  | .ended ts => .ended (t :: ts)
  | .errored ts e => .errored (t :: ts) e
  | .suspended ts => .suspended (t :: ts)

/-- The `token_stream` loop run over a channel: dequeue until the `None`
sentinel; at the sentinel raise `_error` if set, else stop. -/
def streamRun : List (Option String) → Option PyError → StreamOutcome
  | [], _ => .suspended []
  | none :: _, some e => .errored [] e
  | none :: _, none => .ended []
  | some t :: rest, err => (streamRun rest err).consToken t

/-- `token_stream()` applied to a request's current channel and error slot. -/
def token_stream (r : InferenceRequest) : StreamOutcome :=
  streamRun r.tokenQueue r.error

end InferenceRequest

/-- `RequestQueue` (`app/core/queue.py`): a wrapper around
`asyncio.Queue(maxsize=maxsize)`; `items` is the buffered contents in FIFO
order. -/
structure RequestQueue where
  items : List InferenceRequest := []
  maxsize : Int := 100
deriving DecidableEq, Repr

namespace RequestQueue

/-- `size` property: `qsize()`. -/
def size (q : RequestQueue) : Int := q.items.length

/-- `is_full` property: `self.maxsize > 0 and self.size >= self.maxsize`. -/
def is_full (q : RequestQueue) : Bool :=
  decide (0 < q.maxsize) && decide (q.maxsize ≤ q.size)

/-- `put(request)`: raise `asyncio.QueueFull` when `is_full`, else
`put_nowait` (O(1) enqueue).  The second component is the queue state after
the call — unchanged when the call raised. -/
def put (q : RequestQueue) (request : InferenceRequest) :
    Except PyError Unit × RequestQueue :=
  if q.is_full then (Except.error PyError.queueFull, q)
  else (Except.ok (), { q with items := q.items ++ [request] })

/-- `get()`: dequeue the FIFO head, or `none` when the queue is empty and the
caller suspends. -/
def get (q : RequestQueue) : Option (InferenceRequest × RequestQueue) :=
  match q.items with
  | [] => none
  | r :: rest => some (r, { q with items := rest })

end RequestQueue

/-- The arguments `_process_streaming` / `_process_sync` pass to the backend,
taken verbatim from the request. -/
def genParams (r : InferenceRequest) : GenParams :=
  { prompt := r.prompt, system := r.system, max_tokens := r.max_tokens,
    temperature := r.temperature, top_p := r.top_p, top_k := r.top_k,
    stop := r.stop }

namespace InferenceService

/-- `_process_streaming`: forward every backend increment into the request's
channel in arrival order; after a clean return, compute stats and `complete`.
When the backend iterator raises, the exception propagates out of this
function (second component `some e`) with the earlier tokens already
delivered. -/
def process_streaming (llm : LLMManager) (r : InferenceRequest) :
    InferenceRequest × Option PyError :=
  let out := llm.generate_stream (genParams r)
  let r' := out.1.foldl InferenceRequest.put_token r
  match out.2 with
  | some e => (r', some e)
  | none =>
      let prompt_tokens := llm.get_token_count r.prompt
      let completion_tokens : Int := out.1.length
      (r'.complete
        [("prompt_tokens", prompt_tokens),
         ("completion_tokens", completion_tokens),
         ("total_tokens", prompt_tokens + completion_tokens)], none)

/-- `_process_sync`: one blocking backend call; the whole text is delivered as
a single increment, then `complete` with backend-reported counts.  A raise
from the backend propagates out (second component `some e`). -/
def process_sync (llm : LLMManager) (r : InferenceRequest) :
    InferenceRequest × Option PyError :=
  match llm.generate (genParams r) with
  | Except.error e => (r, some e)
  | Except.ok res =>
      let r' := r.put_token res.text
      (r'.complete
        [("prompt_tokens", res.prompt_tokens),
         ("completion_tokens", res.completion_tokens),
         ("total_tokens", res.total_tokens)], none)

/-- `_process_request`: fail fast when the model is not loaded; otherwise
dispatch on the streaming flag and convert any exception raised by the
dispatched call into `fail(e)`.  The function is total: no exception escapes
the execution task boundary. -/
def process_request (llm : LLMManager) (r : InferenceRequest) : InferenceRequest :=
  if !llm.is_loaded then r.fail (PyError.runtimeError "Model not loaded")
  else
    let out := if r.stream then process_streaming llm r else process_sync llm r
    match out.2 with
    | some e => out.1.fail e
    | none => out.1

end InferenceService

/-- The admission controller's state (`InferenceService` in `inference.py`):
`active_count` is `_active_count` (a Python int), `running` is the multiset of
spawned execution tasks that have not yet run their `finally` decrement
(identified by their request). -/
structure SvcState where
  active_count : Int
  max_concurrent : Nat
  request_queue : RequestQueue
  running : List InferenceRequest
deriving DecidableEq, Repr

namespace SvcState

/-- `submit(request)`, one critical section under `self._lock`: under
capacity, increment `active_count` and spawn an execution task (return
`True`); otherwise `queue.put` — which may raise `QueueFull` — and return
`False`. -/
def submit (s : SvcState) (r : InferenceRequest) : Except PyError Bool × SvcState :=
  if s.active_count < (s.max_concurrent : Int) then
    (Except.ok true,
      { s with active_count := s.active_count + 1, running := s.running ++ [r] })
  else
    let out := s.request_queue.put r
    (out.1.map (fun _ => false), { s with request_queue := out.2 })

/-- The `finally` block of `_process_with_tracking`, one critical section:
the finished task decrements `active_count` and retires. -/
def finishDecrement (s : SvcState) (r : InferenceRequest) : SvcState :=
  { s with active_count := s.active_count - 1, running := s.running.erase r }

/-- `_process_next_queued`, one critical section: if capacity allows and the
queue is non-empty, dequeue (with a short bounded wait — the `none` branch is
the `TimeoutError` no-op), increment `active_count`, and spawn a task for the
dequeued request. -/
def process_next_queued (s : SvcState) : SvcState :=
  if s.active_count < (s.max_concurrent : Int) ∧ 0 < s.request_queue.size then
    match s.request_queue.get with
    | none => s
    | some (r, q') =>
        { s with active_count := s.active_count + 1, request_queue := q',
                 running := s.running ++ [r] }
  else s

/-- The tail of `_process_with_tracking`: the `finally` decrement followed by
the promotion attempt (two successive critical sections of the same task). -/
def finishThenPromote (s : SvcState) (r : InferenceRequest) : SvcState :=
  process_next_queued (finishDecrement s r)

/-- An atomic controller step: every interleaving of the asyncio program is a
sequence of these lock-protected critical sections.  A `finish` step needs a
running task to fire its one `finally` decrement; `promote` covers both the
completion-triggered path and the background tick (both run
`_process_next_queued` under the controller lock). -/
inductive Step : SvcState → SvcState → Prop
  | submit (s : SvcState) (r : InferenceRequest) : Step s (submit s r).2
  | finish (s : SvcState) (r : InferenceRequest) (h : r ∈ s.running) :
      Step s (finishDecrement s r)
  | promote (s : SvcState) : Step s (process_next_queued s)

/-- The controller's initial state for a given concurrency limit and queue
capacity. -/
def init (maxc : Nat) (cap : Int) : SvcState :=
  { active_count := 0, max_concurrent := maxc,
    request_queue := { items := [], maxsize := cap }, running := [] }

/-- States reachable from `init` by any interleaving of controller steps. -/
inductive Reach (maxc : Nat) (cap : Int) : SvcState → Prop
  | init : Reach maxc cap (init maxc cap)
  | step {s s' : SvcState} : Reach maxc cap s → Step s s' → Reach maxc cap s'

end SvcState

/-- Benchmark profile aggregated per context size (`benchmark`,
`inference.py`): float metrics modelled as `Rat`. -/
structure Profile where
  context_size : Int
  runs : Nat
  avg_latency_ms : Rat
  avg_ttft_ms : Option Rat
  avg_completion_tokens : Rat
  avg_completion_tokens_per_second : Rat
deriving DecidableEq, Repr

namespace InferenceService

/-- The sort key `(p["avg_completion_tokens_per_second"], -p["avg_latency_ms"])`
used by `max(profiles, key=...)`. -/
def benchKey (p : Profile) : Rat × Rat :=
  (p.avg_completion_tokens_per_second, -p.avg_latency_ms)

/-- Python's lexicographic `<` on 2-tuples. -/
def tupLt (a b : Rat × Rat) : Prop :=
  a.1 < b.1 ∨ (a.1 = b.1 ∧ a.2 < b.2)

instance (a b : Rat × Rat) : Decidable (tupLt a b) := by
  unfold tupLt; infer_instance

/-- One comparison step of Python's `max`: replace the champion only when the
challenger's key is strictly greater. -/
def chooseBest (best q : Profile) : Profile :=
  if tupLt (benchKey best) (benchKey q) then q else best

/-- Python's `max(profiles, key=benchKey)`: scan left to right, replacing the
champion only on a strictly greater key (so the first maximum wins). -/
def bestProfile (profiles : List Profile) : Option Profile :=
  match profiles with
  | [] => none
  | p :: ps => some (ps.foldl chooseBest p)

/-- `_recommend_max_tokens`: `cap = max(32, requested)` then the throughput
table, each branch capped at `cap`. -/
def recommend_max_tokens (requested_max_tokens : Int)
    (completion_tokens_per_second : Rat) : Int :=
  let cap := max 32 requested_max_tokens
  if completion_tokens_per_second < 4 then min cap 64
  else if completion_tokens_per_second < 8 then min cap 96
  else if completion_tokens_per_second < 12 then min cap 128
  else min cap 160

/-- The candidate-validation loop of `benchmark`: skip a context size that is
out of bounds (`< 256` or `> 8192`) or already seen, else record it. -/
def validLoop : List Int → List Int → List Int
  | [], _ => []
  | c :: rest, seen =>
      if c < 256 ∨ 8192 < c ∨ c ∈ seen then validLoop rest seen
      else c :: validLoop rest (c :: seen)

instance (c : Int) (seen : List Int) : Decidable (c < 256 ∨ 8192 < c ∨ c ∈ seen) := by
  infer_instance

/-- `benchmark`'s candidate validation: run the loop with an empty `seen` set,
and fall back to the configured default context size when nothing survives. -/
def validContexts (candidates : List Int) (base_ctx : Int) : List Int :=
  let valid := validLoop candidates []
  if valid = [] then [base_ctx] else valid

end InferenceService

/-- The spec's throughput-to-budget table: below 4 tok/s → 64; below 8 → 96;
below 12 → 128; otherwise 160. -/
def specTokenBudget (tps : Rat) : Int :=
  if tps < 4 then 64 else if tps < 8 then 96 else if tps < 12 then 128 else 160

/-- Modelled from the spec's words for the refinement claim about candidate
validation: de-duplicate, keeping the first occurrence of each value and
preserving input order. -/
def dedupFirstAux : List Int → List Int → List Int
  | [], _ => []
  | x :: xs, seen =>
      if x ∈ seen then dedupFirstAux xs seen else x :: dedupFirstAux xs (x :: seen)

/-- De-duplication preserving the input order of first occurrences. -/
def dedupFirst (l : List Int) : List Int := dedupFirstAux l []

/-- The spec-side bound predicate for benchmark candidates. -/
def ctxInBounds (c : Int) : Bool := decide (256 ≤ c) && decide (c ≤ 8192)

/-! Concrete fixtures used by counterexamples and witnesses. -/

/-- A request built with only a prompt, all other parameters at their
dataclass defaults — what the boundary layer hands to the core. -/
def freshRequest (prompt : String) : InferenceRequest := { prompt := prompt }

/-- A concrete request. -/
def req0 : InferenceRequest := freshRequest "hi"

/-- A concrete engine error. -/
def err0 : PyError := PyError.engineError "boom"

/-! ## C1 -/

/-- C1 counterexample: for a request whose terminal transition was
`fail(err0)`, `get_stats()` does not raise the stored error — the claim is
false at this concrete input. -/
theorem C1_get_stats_raises_counterexample :
    (req0.fail err0).get_stats ≠ some (Except.error err0) := by
  simp [req0, freshRequest, err0, InferenceRequest.fail, InferenceRequest.get_stats]

/-- C1 (amended): after a `fail(error)` terminal transition, `get_stats()`
stops suspending (the completion signal fired) and returns the stored stats
dict unchanged — the `_stats` default, empty unless `complete` ran — rather
than raising the stored error; only `token_stream()` raises it. -/
theorem get_stats_after_fail_returns_stats (r : InferenceRequest) (e : PyError) :
    (r.fail e).get_stats = some (Except.ok r.stats) := by
  simp [InferenceRequest.fail, InferenceRequest.get_stats]

/-! ## C5 -/

/-- C5: for a queue with positive capacity, `put` on a full queue raises
`QueueFull` immediately, leaving the contents unchanged; below capacity it
enqueues the request at the tail. -/
theorem put_full_fails_else_enqueues (q : RequestQueue) (r : InferenceRequest)
    (hcap : 0 < q.maxsize) :
    (q.size = q.maxsize → q.put r = (Except.error PyError.queueFull, q))
    ∧ (q.size < q.maxsize →
        q.put r = (Except.ok (), { q with items := q.items ++ [r] })) := by
  constructor <;> intro h <;>
    simp [RequestQueue.put, RequestQueue.is_full, hcap, h, le_refl]

/-- A queue of capacity 1, initially empty. -/
def qcap1 : RequestQueue := { items := [], maxsize := 1 }

/-- C5 witness: with capacity 1, a first `put` succeeds and a second `put`
before any `get` fails with the capacity error. -/
theorem put_full_fails_else_enqueues_witness :
    qcap1.put req0 = (Except.ok (), { qcap1 with items := [req0] })
    ∧ ((qcap1.put req0).2).put req0
        = (Except.error PyError.queueFull, (qcap1.put req0).2) := by
  refine ⟨(put_full_fails_else_enqueues qcap1 req0 (by decide)).2 (by decide), ?_⟩
  exact (put_full_fails_else_enqueues (qcap1.put req0).2 req0 (by decide)).1 (by decide)

/-! ## C9 -/

/-- C9: with `maxsize=0` the queue is unbounded — `is_full` is `False`
whatever the contents, and `put` always enqueues, never raising. -/
theorem maxsize_zero_is_unbounded (q : RequestQueue) (r : InferenceRequest)
    (h : q.maxsize = 0) :
    q.is_full = false
    ∧ q.put r = (Except.ok (), { q with items := q.items ++ [r] }) := by
  have hfull : q.is_full = false := by
    simp [RequestQueue.is_full, h]
  exact ⟨hfull, by simp [RequestQueue.put, hfull]⟩

/-- An unbounded queue that already holds an item. -/
def qunbounded : RequestQueue := { items := [req0], maxsize := 0 }

/-- C9 witness: a `maxsize=0` queue holding one request is still not full and
accepts another request. -/
theorem maxsize_zero_is_unbounded_witness :
    qunbounded.is_full = false
    ∧ qunbounded.put req0
        = (Except.ok (), { qunbounded with items := [req0, req0] }) :=
  maxsize_zero_is_unbounded qunbounded req0 rfl

/-! ## C10 -/

/-- C10: whenever the originally requested `max_tokens` is below 32, the
recommended `max_tokens` is exactly 32 for every measured throughput — the
32 floor overrides the requested-budget cap. -/
theorem recommend_floor_overrides_requested (requested : Int) (tps : Rat)
    (h : requested < 32) :
    InferenceService.recommend_max_tokens requested tps = 32 := by
  simp only [InferenceService.recommend_max_tokens]
  split_ifs <;> omega

/-- C10 witness: a requested budget of 20 at 5 tok/s is bumped up to 32. -/
theorem recommend_floor_overrides_requested_witness :
    InferenceService.recommend_max_tokens 20 5 = 32 :=
  recommend_floor_overrides_requested 20 5 (by decide)

/-! ## C8 -/

/-- The validation loop is bounds-filtering followed by first-occurrence
de-duplication, threaded through the same `seen` set. -/
lemma validLoop_eq_dedup_filter (cs : List Int) : ∀ seen : List Int,
    InferenceService.validLoop cs seen
      = dedupFirstAux (cs.filter ctxInBounds) seen := by
  induction cs with
  | nil => intro seen; rfl
  | cons c rest ih =>
      intro seen
      by_cases hb : ctxInBounds c = true
      · have hb' : ¬ (c < 256 ∨ 8192 < c) := by
          simp [ctxInBounds] at hb; omega
        by_cases hs : c ∈ seen
        · rw [InferenceService.validLoop, if_pos (by tauto)]
          rw [List.filter_cons_of_pos hb, dedupFirstAux, if_pos hs, ih]
        · rw [InferenceService.validLoop, if_neg (by tauto)]
          rw [List.filter_cons_of_pos hb, dedupFirstAux, if_neg hs, ih]
      · have hb' : c < 256 ∨ 8192 < c := by
          simp [ctxInBounds] at hb; omega
        rw [InferenceService.validLoop, if_pos (by tauto)]
        rw [List.filter_cons_of_neg (by simpa using hb), ih]

/-- Nothing the validation loop keeps was already in its `seen` set. -/
lemma validLoop_not_mem_seen (cs : List Int) : ∀ seen x,
    x ∈ InferenceService.validLoop cs seen → x ∉ seen := by
  induction cs with
  | nil => intro seen x hx; simp [InferenceService.validLoop] at hx
  | cons c rest ih =>
      intro seen x hx
      rw [InferenceService.validLoop] at hx
      split at hx
      · exact ih seen x hx
      · rcases List.mem_cons.mp hx with hxc | hxs
        · subst hxc; tauto
        · intro hmem
          exact ih (c :: seen) x hxs (List.mem_cons_of_mem c hmem)

/-- The validation loop never emits a value twice. -/
lemma validLoop_nodup (cs : List Int) : ∀ seen,
    (InferenceService.validLoop cs seen).Nodup := by
  induction cs with
  | nil => intro seen; simp [InferenceService.validLoop]
  | cons c rest ih =>
      intro seen
      rw [InferenceService.validLoop]
      split
      · exact ih seen
      · refine List.nodup_cons.mpr ⟨fun hmem => ?_, ih (c :: seen)⟩
        exact validLoop_not_mem_seen rest (c :: seen) c hmem (List.mem_cons_self c seen)

/-- The validation loop preserves the input order (its output is a sublist of
the candidates). -/
lemma validLoop_sublist (cs : List Int) : ∀ seen,
    List.Sublist (InferenceService.validLoop cs seen) cs := by
  induction cs with
  | nil => intro seen; simp [InferenceService.validLoop]
  | cons c rest ih =>
      intro seen
      rw [InferenceService.validLoop]
      split
      · exact (ih seen).cons c
      · exact (ih (c :: seen)).cons₂ c

/-- C8: `benchmark` candidate validation drops out-of-bounds context sizes
(below 256 or above 8192), de-duplicates keeping the first occurrence of each
value in input order, and falls back to the configured default context size
when nothing survives; the surviving list has no duplicates and is an
order-preserving sublist of the input. -/
theorem benchmark_candidate_validation (candidates : List Int) (base_ctx : Int) :
    InferenceService.validContexts candidates base_ctx
      = (if dedupFirst (candidates.filter ctxInBounds) = [] then [base_ctx]
         else dedupFirst (candidates.filter ctxInBounds))
    ∧ (InferenceService.validLoop candidates []).Nodup
    ∧ List.Sublist (InferenceService.validLoop candidates []) candidates := by
  refine ⟨?_, validLoop_nodup candidates [], validLoop_sublist candidates []⟩
  rw [InferenceService.validContexts, dedupFirst, validLoop_eq_dedup_filter]

/-! ## C6 -/

/-- Forwarding a batch of backend increments appends them, in arrival order,
to the request's channel, touching nothing else. -/
lemma foldl_put_token (ts : List String) : ∀ r : InferenceRequest,
    ts.foldl InferenceRequest.put_token r
      = { r with tokenQueue := r.tokenQueue ++ ts.map (fun t => some t) } := by
  induction ts with
  | nil => intro r; simp
  | cons t rest ih =>
      intro r
      rw [List.foldl_cons, ih]
      simp [InferenceRequest.put_token]

/-- Consuming a channel of `ts` followed by the sentinel yields exactly `ts`
in order, then the terminal event determined by the error slot. -/
lemma streamRun_produced (ts : List String) (err : Option PyError) :
    InferenceRequest.streamRun (ts.map (fun t => some t) ++ [none]) err
      = match err with
        | none => InferenceRequest.StreamOutcome.ended ts
        | some e => InferenceRequest.StreamOutcome.errored ts e := by
  induction ts with
  | nil => cases err <;> rfl
  | cons t rest ih =>
      rw [List.map_cons, List.cons_append, InferenceRequest.streamRun, ih]
      cases err <;> rfl

/-- C6: for a freshly constructed streaming request, a single consumer of
`token_stream()` observes exactly the increments the backend produced, in
production order, and the terminal event — end-of-stream on a clean return,
the raised error when the backend failed after its increments — comes last,
never interleaved before a produced increment. -/
theorem token_stream_production_order (llm : LLMManager) (r : InferenceRequest)
    (ts : List String) (errOpt : Option PyError)
    (hl : llm.is_loaded = true) (hstream : r.stream = true)
    (hq : r.tokenQueue = []) (he : r.error = none)
    (hs : llm.generate_stream (genParams r) = (ts, errOpt)) :
    (InferenceService.process_request llm r).token_stream
      = match errOpt with
        | none => InferenceRequest.StreamOutcome.ended ts
        | some e => InferenceRequest.StreamOutcome.errored ts e := by
  cases errOpt with
  | none =>
      simp [InferenceService.process_request, InferenceService.process_streaming,
        hl, hs, hstream, hq, he, foldl_put_token, InferenceRequest.complete,
        InferenceRequest.token_stream, streamRun_produced]
  | some e =>
      simp [InferenceService.process_request, InferenceService.process_streaming,
        hl, hs, hstream, hq, he, foldl_put_token, InferenceRequest.fail,
        InferenceRequest.token_stream, streamRun_produced]

/-- A deterministic backend stub that streams the spec's example tokens. -/
def parisLLM : LLMManager :=
  { is_loaded := true, model_name := "stub",
    generate_stream := fun _ => (["The", " capital", " is", " Paris"], none),
    generate := fun _ =>
      Except.ok { text := "", prompt_tokens := 0, completion_tokens := 0, total_tokens := 0 },
    get_token_count := fun _ => 7 }

/-- C6 witness: with a backend stub emitting
`["The", " capital", " is", " Paris"]`, the consumer sees exactly that
sequence followed by the end-of-stream terminal event. -/
theorem token_stream_production_order_witness :
    (InferenceService.process_request parisLLM
        (freshRequest "What is the capital of France?")).token_stream
      = InferenceRequest.StreamOutcome.ended ["The", " capital", " is", " Paris"] :=
  token_stream_production_order parisLLM (freshRequest "What is the capital of France?")
    ["The", " capital", " is", " Paris"] none rfl rfl rfl rfl rfl

/-! ## C7 -/

/-- The exception, if any, that the backend call raises while executing a
request: the streaming iterator's trailing error in streaming mode, the
`generate` error in synchronous mode. -/
def backendError (llm : LLMManager) (r : InferenceRequest) : Option PyError :=
  if r.stream then (llm.generate_stream (genParams r)).2
  else
    match llm.generate (genParams r) with
    | Except.error e => some e
    | Except.ok _ => none

/-- C7: `process_request` always drives its request to a terminal state and
returns normally — in the embedding its type is
`LLMManager → InferenceRequest → InferenceRequest`, so no exception can reach
the controller or another request — and whenever the backend call raises `e`,
in streaming or synchronous mode, that exception is converted into
`fail(e)` on the owning request. -/
theorem engine_errors_contained (llm : LLMManager) (r : InferenceRequest) :
    (InferenceService.process_request llm r).done = true
    ∧ (∀ e : PyError, llm.is_loaded = true → backendError llm r = some e →
        (InferenceService.process_request llm r).error = some e) := by
  cases hl : llm.is_loaded with
  | false => simp [InferenceService.process_request, hl, InferenceRequest.fail]
  | true =>
      cases hstream : r.stream with
      | true =>
          cases hgen : llm.generate_stream (genParams r) with
          | mk ts errOpt =>
              cases errOpt with
              | none =>
                  simp [InferenceService.process_request, backendError,
                    InferenceService.process_streaming, hl, hstream, hgen,
                    InferenceRequest.complete]
              | some e =>
                  simp [InferenceService.process_request, backendError,
                    InferenceService.process_streaming, hl, hstream, hgen,
                    InferenceRequest.fail]
      | false =>
          cases hgen : llm.generate (genParams r) with
          | error e =>
              simp [InferenceService.process_request, backendError,
                InferenceService.process_sync, hl, hstream, hgen,
                InferenceRequest.fail]
          | ok res =>
              simp [InferenceService.process_request, backendError,
                InferenceService.process_sync, hl, hstream, hgen,
                InferenceRequest.complete]

/-- A backend stub that emits one token and then raises. -/
def boomLLM : LLMManager :=
  { is_loaded := true, model_name := "stub",
    generate_stream := fun _ => (["a"], some err0),
    generate := fun _ => Except.error err0,
    get_token_count := fun _ => 7 }

/-- C7 witness: a backend raise mid-stream leaves the owning request failed
with exactly that error, and the execution task still returns normally. -/
theorem engine_errors_contained_witness :
    (InferenceService.process_request boomLLM (freshRequest "hi")).done = true
    ∧ (InferenceService.process_request boomLLM (freshRequest "hi")).error = some err0 :=
  ⟨(engine_errors_contained boomLLM (freshRequest "hi")).1,
   (engine_errors_contained boomLLM (freshRequest "hi")).2 err0 rfl rfl⟩

/-! ## C2 -/

namespace InferenceService

/-- Python's tuple `<` is transitive. -/
lemma tupLt_trans {a b c : Rat × Rat} (hab : tupLt a b) (hbc : tupLt b c) :
    tupLt a c := by
  rcases hab with h1 | ⟨h1, h2⟩ <;> rcases hbc with h3 | ⟨h3, h4⟩
  · exact Or.inl (lt_trans h1 h3)
  · exact Or.inl (h3 ▸ h1)
  · exact Or.inl (h1 ▸ h3)
  · exact Or.inr ⟨h1.trans h3, lt_trans h2 h4⟩

/-- Python's tuple `<` is cotransitive: a strict comparison splits at any
middle key. -/
lemma tupLt_cotrans {a c : Rat × Rat} (b : Rat × Rat) (hac : tupLt a c) :
    tupLt a b ∨ tupLt b c := by
  rcases hac with h1 | ⟨h1, h2⟩
  · rcases lt_trichotomy a.1 b.1 with hb | hb | hb
    · exact Or.inl (Or.inl hb)
    · exact Or.inr (Or.inl (hb ▸ h1))
    · exact Or.inr (Or.inl (lt_trans hb h1))
  · rcases lt_trichotomy a.1 b.1 with hb | hb | hb
    · exact Or.inl (Or.inl hb)
    · rcases lt_trichotomy a.2 b.2 with hb2 | hb2 | hb2
      · exact Or.inl (Or.inr ⟨hb, hb2⟩)
      · exact Or.inr (Or.inr ⟨hb ▸ h1, hb2 ▸ h2⟩)
      · exact Or.inr (Or.inr ⟨hb ▸ h1, lt_trans hb2 h2⟩)
    · exact Or.inr (Or.inl (h1 ▸ hb))

/-- The scan of Python's `max` returns an element of the scanned list (or its
seed) whose key no scanned element strictly beats. -/
lemma foldl_chooseBest_spec (ps : List Profile) : ∀ b : Profile,
    (ps.foldl chooseBest b = b ∨ ps.foldl chooseBest b ∈ ps)
    ∧ ¬ tupLt (benchKey (ps.foldl chooseBest b)) (benchKey b)
    ∧ ∀ q ∈ ps, ¬ tupLt (benchKey (ps.foldl chooseBest b)) (benchKey q) := by
  induction ps with
  | nil =>
      intro b
      rw [List.foldl_nil]
      refine ⟨Or.inl rfl, fun h => ?_, by simp⟩
      rcases h with h | ⟨h1, h2⟩
      · exact lt_irrefl _ h
      · exact lt_irrefl _ h2
  | cons c rest ih =>
      intro b
      rw [List.foldl_cons]
      by_cases hlt : tupLt (benchKey b) (benchKey c)
      · have hstep : chooseBest b c = c := by rw [chooseBest, if_pos hlt]
        rw [hstep]
        obtain ⟨hmem, hbest, hall⟩ := ih c
        refine ⟨?_, ?_, ?_⟩
        · rcases hmem with h | h
          · rw [h]; exact Or.inr (List.mem_cons_self c rest)
          · exact Or.inr (List.mem_cons_of_mem c h)
        · intro hcon
          exact hbest (tupLt_trans hcon hlt)
        · intro q hq
          rcases List.mem_cons.mp hq with h | h
          · exact h ▸ hbest
          · exact hall q h
      · have hstep : chooseBest b c = b := by rw [chooseBest, if_neg hlt]
        rw [hstep]
        obtain ⟨hmem, hbest, hall⟩ := ih b
        refine ⟨?_, hbest, ?_⟩
        · rcases hmem with h | h
          · exact Or.inl h
          · exact Or.inr (List.mem_cons_of_mem c h)
        · intro q hq
          rcases List.mem_cons.mp hq with h | h
          · subst h
            intro hcon
            rcases tupLt_cotrans (benchKey b) hcon with h | h
            · exact hbest h
            · exact hlt h
          · exact hall q h

end InferenceService

/-- C2: `benchmark` selects as winner the profile maximizing average
completion tokens/second, breaking ties by lower average latency (Python's
`max` with key `(tok/s, -latency)`), and derives the recommended `max_tokens`
from the fixed throughput table (`< 4 → 64`, `< 8 → 96`, `< 12 → 128`, else
`160`), floored at 32 — the floor taking precedence — and capped by the
originally requested budget. -/
theorem benchmark_winner_and_budget (profiles : List Profile) (p : Profile)
    (hp : InferenceService.bestProfile profiles = some p)
    (requested : Int) (tps : Rat) :
    (p ∈ profiles
      ∧ ∀ q ∈ profiles,
          q.avg_completion_tokens_per_second ≤ p.avg_completion_tokens_per_second
          ∧ (q.avg_completion_tokens_per_second = p.avg_completion_tokens_per_second →
              p.avg_latency_ms ≤ q.avg_latency_ms))
    ∧ InferenceService.recommend_max_tokens requested tps
        = max 32 (min (specTokenBudget tps) requested) := by
  constructor
  · cases profiles with
    | nil => exact absurd hp (by simp [InferenceService.bestProfile])
    | cons p0 ps =>
        have hpeq : ps.foldl InferenceService.chooseBest p0 = p := by
          simpa [InferenceService.bestProfile] using hp
        obtain ⟨hmem, hbest, hall⟩ := InferenceService.foldl_chooseBest_spec ps p0
        rw [hpeq] at hmem hbest hall
        have hnot : ∀ q ∈ p0 :: ps,
            ¬ InferenceService.tupLt (InferenceService.benchKey p) (InferenceService.benchKey q) := by
          intro q hq
          rcases List.mem_cons.mp hq with h | h
          · exact h ▸ hbest
          · exact hall q h
        refine ⟨?_, ?_⟩
        · rcases hmem with h | h
          · exact h ▸ List.mem_cons_self p0 ps
          · exact List.mem_cons_of_mem p0 h
        · intro q hq
          have hn := hnot q hq
          simp only [InferenceService.tupLt, InferenceService.benchKey] at hn
          push_neg at hn
          obtain ⟨h1, h2⟩ := hn
          refine ⟨h1, fun heq => ?_⟩
          have h3 := h2 heq.symm
          linarith
  · simp only [InferenceService.recommend_max_tokens, specTokenBudget]
    split_ifs <;> omega

/-- The spec's tie-break example, context size 512. -/
def profile512 : Profile :=
  { context_size := 512, runs := 2, avg_latency_ms := 300, avg_ttft_ms := none,
    avg_completion_tokens := 0, avg_completion_tokens_per_second := 10 }

/-- The spec's tie-break example, context size 2048. -/
def profile2048 : Profile :=
  { context_size := 2048, runs := 2, avg_latency_ms := 500, avg_ttft_ms := none,
    avg_completion_tokens := 0, avg_completion_tokens_per_second := 15 }

/-- C2 witness: on the spec's example the 2048-context profile wins (higher
throughput beats lower latency) and a requested budget of 160 at 15 tok/s is
recommended as `max 32 (min 160 160)`. -/
theorem benchmark_winner_and_budget_witness :
    profile2048 ∈ [profile512, profile2048]
    ∧ InferenceService.recommend_max_tokens 160 15
        = max 32 (min (specTokenBudget 15) 160) :=
  ⟨(benchmark_winner_and_budget [profile512, profile2048] profile2048
      (by decide) 160 15).1.1,
   (benchmark_winner_and_budget [profile512, profile2048] profile2048
      (by decide) 160 15).2⟩

/-! ## C3 -/

/-- C3: when an execution task finishes, it decrements `active_count` in its
critical section and then attempts to promote exactly one queued request:
if the freed slot gives capacity and the queue holds `B :: rest`, exactly the
FIFO head `B` is dequeued and spawned (net `active_count` unchanged across
decrement + promotion), and if nothing is queued the bounded wait expires and
nothing else changes.  In particular, with `max_concurrent = 1`, a queued `B`
begins executing right after `A` completes, with no external action. -/
theorem completion_promotes_fifo_head (s : SvcState) (r B : InferenceRequest)
    (rest : List InferenceRequest) :
    (s.request_queue.items = B :: rest →
      s.active_count - 1 < (s.max_concurrent : Int) →
      (SvcState.finishThenPromote s r).active_count = s.active_count
      ∧ (SvcState.finishThenPromote s r).request_queue.items = rest
      ∧ (SvcState.finishThenPromote s r).running = s.running.erase r ++ [B])
    ∧ (s.request_queue.items = [] →
        SvcState.finishThenPromote s r = SvcState.finishDecrement s r) := by
  constructor
  · intro hq hc
    have hguard : (SvcState.finishDecrement s r).active_count
          < ((SvcState.finishDecrement s r).max_concurrent : Int)
        ∧ 0 < (SvcState.finishDecrement s r).request_queue.size := by
      constructor
      · exact hc
      · simp [SvcState.finishDecrement, RequestQueue.size, hq]
    rw [SvcState.finishThenPromote, SvcState.process_next_queued, if_pos hguard]
    have hget : (SvcState.finishDecrement s r).request_queue.get
        = some (B, { s.request_queue with items := rest }) := by
      simp [SvcState.finishDecrement, RequestQueue.get, hq]
    rw [hget]
    refine ⟨by simp [SvcState.finishDecrement], by simp [SvcState.finishDecrement],
      by simp [SvcState.finishDecrement]⟩
  · intro hq
    have hsize : ¬ ((SvcState.finishDecrement s r).active_count
          < ((SvcState.finishDecrement s r).max_concurrent : Int)
        ∧ 0 < (SvcState.finishDecrement s r).request_queue.size) := by
      rintro ⟨-, h⟩
      simp [SvcState.finishDecrement, RequestQueue.size, hq] at h
    rw [SvcState.finishThenPromote, SvcState.process_next_queued, if_neg hsize]

/-- A first concrete request. -/
def reqA : InferenceRequest := freshRequest "A"

/-- A second concrete request. -/
def reqB : InferenceRequest := freshRequest "B"

/-- A controller with `max_concurrent = 1`, `A` executing and `B` queued. -/
def svcAB : SvcState :=
  { active_count := 1, max_concurrent := 1,
    request_queue := { items := [reqB], maxsize := 100 }, running := [reqA] }

/-- C3 witness: with `max_concurrent = 1`, once `A` completes, `B` is
promoted out of the queue and is the one running task — no external action
needed. -/
theorem completion_promotes_fifo_head_witness :
    (SvcState.finishThenPromote svcAB reqA).active_count = 1
    ∧ (SvcState.finishThenPromote svcAB reqA).request_queue.items = []
    ∧ (SvcState.finishThenPromote svcAB reqA).running = [reqB] := by
  obtain ⟨h1, h2, h3⟩ :=
    (completion_promotes_fifo_head svcAB reqA reqB []).1 rfl (by decide)
  exact ⟨by rw [h1]; rfl, h2, by rw [h3]; simp [svcAB, List.erase_cons_head]⟩

/-! ## C4 -/

/-- Inductive invariant of the controller: the concurrency limit is constant,
`active_count` counts exactly the spawned-but-unfinished execution tasks, and
it stays within `[0, max_concurrent]`. -/
lemma reach_invariant {maxc : Nat} {cap : Int} {s : SvcState}
    (h : SvcState.Reach maxc cap s) :
    s.max_concurrent = maxc
    ∧ s.active_count = (s.running.length : Int)
    ∧ 0 ≤ s.active_count ∧ s.active_count ≤ (maxc : Int) := by
  induction h with
  | init => simp [SvcState.init]
  | step hr hstep ih =>
      rename_i s s'
      obtain ⟨ihm, ihc, ih0, ihb⟩ := ih
      cases hstep with
      | submit r =>
          rw [SvcState.submit]
          by_cases hlt : s.active_count < (s.max_concurrent : Int)
          · rw [if_pos hlt]
            dsimp only
            refine ⟨ihm, ?_, by omega, ?_⟩
            · simp only [List.length_append, List.length_cons, List.length_nil]
              omega
            · rw [ihm] at hlt; omega
          · rw [if_neg hlt]
            exact ⟨ihm, ihc, ih0, ihb⟩
      | finish r hmem =>
          have herase : (s.running.erase r).length = s.running.length - 1 :=
            List.length_erase_of_mem hmem
          have hpos : 0 < s.running.length := List.length_pos.mpr (List.ne_nil_of_mem hmem)
          refine ⟨ihm, ?_, ?_, ?_⟩ <;>
            simp only [SvcState.finishDecrement, herase] <;> omega
      | promote =>
          rw [SvcState.process_next_queued]
          by_cases hcond : s.active_count < (s.max_concurrent : Int)
              ∧ 0 < s.request_queue.size
          · rw [if_pos hcond]
            cases hitems : s.request_queue.items with
            | nil =>
                have hget : s.request_queue.get = none := by
                  rw [RequestQueue.get, hitems]
                rw [hget]
                exact ⟨ihm, ihc, ih0, ihb⟩
            | cons B rest =>
                have hget : s.request_queue.get
                    = some (B, { s.request_queue with items := rest }) := by
                  rw [RequestQueue.get, hitems]
                rw [hget]
                dsimp only
                refine ⟨ihm, ?_, by omega, ?_⟩
                · simp only [List.length_append, List.length_cons, List.length_nil]
                  omega
                · have hlt := hcond.1; rw [ihm] at hlt; omega
          · rw [if_neg hcond]
            exact ⟨ihm, ihc, ih0, ihb⟩

/-- C4: under every interleaving of the controller's atomic steps — submits
(which increment only under the `active_count < max_concurrent` guard and
otherwise queue), promotions (same guard), and completions (each firing its
one decrement) — `active_count` stays within `[0, max_concurrent]`. -/
theorem active_count_within_bounds (maxc : Nat) (cap : Int) (s : SvcState)
    (h : SvcState.Reach maxc cap s) :
    0 ≤ s.active_count ∧ s.active_count ≤ (maxc : Int) :=
  ⟨(reach_invariant h).2.2.1, (reach_invariant h).2.2.2⟩

/-- C4 witness: the bounds hold at the concrete state reached by submitting
one request to a fresh controller with `max_concurrent = 1`. -/
theorem active_count_within_bounds_witness :
    0 ≤ (SvcState.submit (SvcState.init 1 100) reqA).2.active_count
    ∧ (SvcState.submit (SvcState.init 1 100) reqA).2.active_count ≤ ((1 : Nat) : Int) :=
  active_count_within_bounds 1 100 _
    (SvcState.Reach.step SvcState.Reach.init (SvcState.Step.submit _ reqA))
